import Mathlib

/-!
Verification of the noirdesktop audio playback core.

Shallow embedding of the audio subsystem of `noir-tauri/src-tauri/src`:
machine floats (`f32`/`f64`) are modelled as exact rationals `ℚ` (none of
the verified paths depends on rounding: the operations involved are
comparisons, copies, multiplications by `1.0`, and divisions by powers of
two), machine integers (`u32`/`u64`/`usize`) as `ℕ`, and the concurrent
seek handshake as an explicit trace of atomic actions on the shared flag
state.
-/

namespace Noir

/-- Rust `f32::clamp(lo, hi)` on the value level: `if self < min { min }
else if self > max { max } else { self }`. -/
def rustClamp (v lo hi : ℚ) : ℚ :=
  if v < lo then lo else if v > hi then hi else v

/-! ### PlaybackState volume (audio_engine.rs lines 204-252) -/

/-- Volume field of `PlaybackState` (audio_engine.rs line 211): the engine
stores the volume as `f32` bits inside an `AtomicU64`; `f32::to_bits` /
`f32::from_bits` and the `u64`/`u32` widening round-trip are exact, so the
stored value is modelled directly. -/
structure PlaybackState where
  volume : ℚ

/-- `PlaybackState::set_volume` (audio_engine.rs lines 229-231):
`self.volume.store(f32::to_bits(vol.clamp(0.0, 1.0)) as u64)`. -/
def PlaybackState.set_volume (s : PlaybackState) (vol : ℚ) : PlaybackState :=
  { s with volume := rustClamp vol 0 1 }

/-- `PlaybackState::get_volume` (audio_engine.rs lines 233-235):
`f32::from_bits(self.volume.load() as u32)`. -/
def PlaybackState.get_volume (s : PlaybackState) : ℚ :=
  s.volume

/-- `AudioCommand::SetVolume` arm of `audio_thread_main`
(audio_engine.rs lines 876-878): `state.set_volume(vol)`. -/
def audioThreadSetVolume (s : PlaybackState) (vol : ℚ) : PlaybackState :=
  s.set_volume vol

/-! ### EqSharedState (eq.rs lines 14-95) -/

/-- `EQ_BAND_COUNT` (eq.rs line 14). -/
def EQ_BAND_COUNT : ℕ := 8

/-- `EQ_MIN_DB` (eq.rs line 27). -/
def EQ_MIN_DB : ℚ := -12

/-- `EQ_MAX_DB` (eq.rs line 28). -/
def EQ_MAX_DB : ℚ := 12

/-- `EqSharedState` (eq.rs lines 35-38): an enabled flag plus 8 gain values
stored as `f32` bits in `AtomicU32`s (the bits round-trip is exact, so the
gains are modelled as the stored values). -/
structure EqSharedState where
  enabled : Bool
  gains : Fin EQ_BAND_COUNT → ℚ

/-- `EqSharedState::new` (eq.rs lines 41-47): disabled, all gains 0. -/
def EqSharedState.new : EqSharedState :=
  { enabled := false, gains := fun _ => 0 }

/-- `EqSharedState::set_gain` (eq.rs lines 50-55): if `band < EQ_BAND_COUNT`,
stores `gain_db.clamp(EQ_MIN_DB, EQ_MAX_DB)` into `gains[band]`; otherwise
does nothing. -/
def EqSharedState.set_gain (s : EqSharedState) (band : ℕ) (gain_db : ℚ) :
    EqSharedState :=
  if h : band < EQ_BAND_COUNT then
    { s with gains :=
        Function.update s.gains ⟨band, h⟩ (rustClamp gain_db EQ_MIN_DB EQ_MAX_DB) }
  else s

/-- `EqSharedState::get_gain` (eq.rs lines 65-71): reads `gains[band]` when
`band < EQ_BAND_COUNT`, else returns `0.0`. -/
def EqSharedState.get_gain (s : EqSharedState) (band : ℕ) : ℚ :=
  if h : band < EQ_BAND_COUNT then s.gains ⟨band, h⟩ else 0

/-- Gain read performed by the processor loop (eq.rs lines 207-210):
`f32::from_bits(shared.gains[i].load(...))` for a band index `i` that the
caller guarantees is below `EQ_BAND_COUNT`; out-of-range reads do not occur
in the source (the bands array has exactly `EQ_BAND_COUNT` entries), the
else-branch value is irrelevant. -/
def EqSharedState.gainAt (s : EqSharedState) (i : ℕ) : ℚ :=
  if h : i < EQ_BAND_COUNT then s.gains ⟨i, h⟩ else 0

/-! ### EQ processor (eq.rs lines 97-234 and the biquad crate's DirectForm1) -/

/-- Biquad coefficients (`biquad::Coefficients<f32>`), as produced by
`EqBandFilter::make_coeffs` (eq.rs lines 119-136). -/
structure Coefficients where
  a1 : ℚ
  a2 : ℚ
  b0 : ℚ
  b1 : ℚ
  b2 : ℚ

/-- Coefficient computation: `make_coeffs` evaluates
`10^(gain_db/20)` and the biquad crate's peaking-EQ formula, which are
transcendental in the frequency, gain and rate; the bypass property proved
below holds for every such function, so the computation is abstracted as a
parameter `(freq, gain_db, sample_rate) ↦ coefficients`. -/
def MkCoeffs : Type := ℚ → ℚ → ℚ → Coefficients

/-- `biquad::DirectForm1<f32>`: coefficients plus the four state variables
`x1, x2, y1, y2`. -/
structure DirectForm1 where
  coeffs : Coefficients
  x1 : ℚ
  x2 : ℚ
  y1 : ℚ
  y2 : ℚ

/-- `DirectForm1::new(coeffs)`: zeroed state. -/
def DirectForm1.new (c : Coefficients) : DirectForm1 :=
  { coeffs := c, x1 := 0, x2 := 0, y1 := 0, y2 := 0 }

/-- `DirectForm1::run(input)` of the biquad crate:
`out = b0*x + b1*x1 + b2*x2 - a1*y1 - a2*y2`, then shift the histories. -/
def DirectForm1.run (f : DirectForm1) (x : ℚ) : ℚ × DirectForm1 :=
  let y := f.coeffs.b0 * x + f.coeffs.b1 * f.x1 + f.coeffs.b2 * f.x2
    - f.coeffs.a1 * f.y1 - f.coeffs.a2 * f.y2
  (y, { f with x2 := f.x1, x1 := x, y2 := f.y1, y1 := y })

/-- `EqBandFilter` (eq.rs lines 100-105): stereo pair of biquads, the baked
gain, and the band's center frequency. -/
structure EqBandFilter where
  filter_l : DirectForm1
  filter_r : DirectForm1
  current_gain_db : ℚ
  freq : ℚ

/-- `EqBandFilter::new(freq, sample_rate)` (eq.rs lines 108-117): baked gain
0 dB, both filters built from `make_coeffs(freq, 0, rate)`. -/
def EqBandFilter.new (mk : MkCoeffs) (freq sample_rate : ℚ) : EqBandFilter :=
  let coeffs := mk freq 0 sample_rate
  { filter_l := DirectForm1.new coeffs, filter_r := DirectForm1.new coeffs,
    current_gain_db := 0, freq := freq }

/-- `EqBandFilter::update_if_needed` (eq.rs lines 140-151): when the shared
gain differs from the baked gain by more than 0.01 dB, bake the new gain and
rebuild both filters (zeroing their state); otherwise leave the band
untouched. -/
def EqBandFilter.update_if_needed (mk : MkCoeffs) (b : EqBandFilter)
    (new_gain_db sample_rate : ℚ) : EqBandFilter :=
  if 1/100 < |new_gain_db - b.current_gain_db| then
    let coeffs := mk b.freq new_gain_db sample_rate
    { b with current_gain_db := new_gain_db,
             filter_l := DirectForm1.new coeffs,
             filter_r := DirectForm1.new coeffs }
  else b

/-- `EqBandFilter::process` (eq.rs lines 155-157): run left and right
through the band's two biquads. -/
def EqBandFilter.process (b : EqBandFilter) (l r : ℚ) : (ℚ × ℚ) × EqBandFilter :=
  let (nl, fl) := b.filter_l.run l
  let (nr, fr) := b.filter_r.run r
  ((nl, nr), { b with filter_l := fl, filter_r := fr })

/-- `EqProcessor` (eq.rs lines 162-165): the 8 band filters (as a list in
band order) and the output sample rate. -/
structure EqProcessor where
  bands : List EqBandFilter
  sample_rate : ℚ

/-- `EqProcessor::new(sample_rate)` (eq.rs lines 169-174). -/
def EqProcessor.new (mk : MkCoeffs) (sample_rate : ℚ) : EqProcessor :=
  { bands := [32, 64, 250, 1000, 2000, 4000, 8000, 16000].map
      (fun freq => EqBandFilter.new mk freq sample_rate),
    sample_rate := sample_rate }

/-- Inner band loop of one frame (eq.rs lines 221-228): each band whose
baked gain exceeds 0.01 dB in magnitude processes the stereo pair; flat
bands are bypassed entirely. -/
def processFrameBands : List EqBandFilter → ℚ → ℚ → ℚ × ℚ × List EqBandFilter
  | [], l, r => (l, r, [])
  | b :: rest, l, r =>
    if 1/100 < |b.current_gain_db| then
      let ((nl, nr), b') := b.process l r
      let (fl, fr, rest') := processFrameBands rest nl nr
      (fl, fr, b' :: rest')
    else
      let (fl, fr, rest') := processFrameBands rest l r
      (fl, fr, b :: rest')

/-- Frame loop of `process_interleaved` (eq.rs lines 213-232): for
`frame` in `0..frames`, read the stereo pair at `frame*2` / `frame*2+1`
(stopping early when the right index falls outside the buffer), run the
band chain, and write the pair back. `remaining` counts the frames still to
process. -/
def processFrames (bands : List EqBandFilter) (samples : List ℚ) :
    ℕ → ℕ → List ℚ × List EqBandFilter
  | _, 0 => (samples, bands)
  | frame, remaining + 1 =>
    let l_idx := frame * 2
    let r_idx := frame * 2 + 1
    if samples.length ≤ r_idx then (samples, bands)
    else
      let l := samples.getD l_idx 0
      let r := samples.getD r_idx 0
      let (nl, nr, bands') := processFrameBands bands l r
      processFrames bands' ((samples.set l_idx nl).set r_idx nr)
        (frame + 1) remaining

/-- `EqProcessor::process_interleaved` (eq.rs lines 195-233): return the
buffer untouched when the EQ is disabled; otherwise bake any changed gains
(lines 207-210) and run the frame loop. -/
def EqProcessor.process_interleaved (mk : MkCoeffs) (p : EqProcessor)
    (samples : List ℚ) (frames : ℕ) (shared : EqSharedState) :
    List ℚ × EqProcessor :=
  if !shared.enabled then (samples, p)
  else
    let bands := p.bands.mapIdx
      (fun i b => b.update_if_needed mk (shared.gainAt i) p.sample_rate)
    let (samples', bands') := processFrames bands samples 0 frames
    (samples', { p with bands := bands' })

/-! ### Sample-rate selection (audio/coreaudio_backend.rs) -/

/-- `CoreAudioBackend::find_best_supported_rate` (coreaudio_backend.rs lines
559-582): empty list ⇒ 44100; exact match ⇒ the source rate; else the
minimum of the supported rates `≥ source_rate`; else the maximum supported
rate (with 44100 as the unreachable `unwrap_or` default). -/
def find_best_supported_rate (source_rate : ℕ) (supported_rates : List ℕ) : ℕ :=
  if supported_rates.isEmpty then 44100
  else if source_rate ∈ supported_rates then source_rate
  else
    let higher_rates := supported_rates.filter (fun r => source_rate ≤ r)
    match higher_rates.min? with
    | some rate => rate
    | none => supported_rates.max?.getD 44100

/-- Rate selection inside `prepare_for_streaming` (coreaudio_backend.rs lines
781-787): the requested `config.sample_rate` when it is in the supported
list, otherwise `find_best_supported_rate`; the function then sets the
device to this rate and returns it (lines 789-804). -/
def prepareTargetRate (requested : ℕ) (supported_rates : List ℕ) : ℕ :=
  if requested ∈ supported_rates then requested
  else find_best_supported_rate requested supported_rates

/-- Modelled from the spec's words (§4.F (iii)), for comparison with the
source's `prepareTargetRate`: the policy
{exact match > smallest ≥ requested > largest available > 44100}. -/
def specRatePolicy (requested : ℕ) (supported_rates : List ℕ) : ℕ :=
  if requested ∈ supported_rates then requested
  else match (supported_rates.filter (fun r => requested ≤ r)).min? with
    | some rate => rate
    | none =>
      match supported_rates.max? with
      | some m => m
      | none => 44100

/-! ### Sample conversion (audio_decoder.rs lines 745-801) -/

/-- Source sample formats handled by `convert_to_f32_interleaved`
(the `AudioBufferRef` variants matched in audio_decoder.rs lines 746-796). -/
inductive SampleFmt
  | f32
  | s16
  | s24
  | s32
  | u8
deriving DecidableEq

/-- Per-sample conversion applied by `convert_to_f32_interleaved`: F32 is
pushed unchanged (line 753), S16 divides by 32768.0 (line 763), S24 divides
by 8388608.0 (line 773), S32 divides by 2147483648.0 (line 783), U8 shifts
by 128.0 and divides by 128.0 (line 793). The raw sample value is carried
as a rational; the divisions by powers of two are exact in `f32` for these
integer ranges up to the initial int-to-float rounding, which never leaves
`[-1, 1]`. -/
def convertSample : SampleFmt → ℚ → ℚ
  | .f32, v => v
  | .s16, v => v / 32768
  | .s24, v => v / 8388608
  | .s32, v => v / 2147483648
  | .u8, v => (v - 128) / 128

/-- `convert_to_f32_interleaved` (audio_decoder.rs lines 745-801): for each
frame, for each channel, push the converted sample of `buf.chan(ch)[frame]`;
`chans` is the per-channel (planar) sample data of the decoded buffer. -/
def convert_to_f32_interleaved (fmt : SampleFmt) (chans : List (List ℚ))
    (frames : ℕ) : List ℚ :=
  ((List.range frames).map (fun frame =>
    chans.map (fun chan => convertSample fmt (chan.getD frame 0)))).flatten

/-- Value range guaranteed by the Rust element type of each `AudioBufferRef`
variant: `i16` for S16, `i24` (a 24-bit value in an `i32`) for S24, `i32`
for S32, `u8` for U8; for F32 the element type guarantees no range, so the
interval `[-1, 1]` is an assumption on the decoded data. -/
def fmtRange : SampleFmt → ℚ → Prop
  | .f32, v => -1 ≤ v ∧ v ≤ 1
  | .s16, v => -32768 ≤ v ∧ v ≤ 32767
  | .s24, v => -8388608 ≤ v ∧ v ≤ 8388607
  | .s32, v => -2147483648 ≤ v ∧ v ≤ 2147483647
  | .u8, v => 0 ≤ v ∧ v ≤ 255

instance fmtRange.decidable (fmt : SampleFmt) (v : ℚ) :
    Decidable (fmtRange fmt v) := by
  cases fmt <;> (unfold fmtRange; infer_instance)

/-! ### Output write paths at volume 1.0 (coreaudio_stream.rs, audio_engine.rs) -/

/-- CoreAudio interleaved output write (coreaudio_stream.rs lines 426-448),
element-wise: when `volume < 1.0` each index `i < read` receives
`interleaved_buf[i] * volume`; otherwise (the bit-perfect bypass branch)
indices below `copy_len = min read out_len` receive `interleaved_buf[i]`
via `copy_from_slice`; indices `≥ read` are zero-filled; any index in
`[copy_len, read)` keeps the previous buffer content (unreachable when
`read ≤ out_len`). `out0` is the output buffer's previous content. -/
def coreaudioWriteInterleaved (volume : ℚ) (interleaved_buf out0 : List ℚ)
    (read : ℕ) : List ℚ :=
  (List.range out0.length).map (fun i =>
    if volume < 1 then
      if i < read then interleaved_buf.getD i 0 * volume else 0
    else
      if i < min read out0.length then interleaved_buf.getD i 0
      else if read ≤ i then 0
      else out0.getD i 0)

/-- CoreAudio planar output write for one channel `ch` (coreaudio_stream.rs
lines 450-467): frame `frame` receives `interleaved_buf[idx]` (scaled only
when `volume < 1.0`) when `frame < frames_read = read / channels` and
`idx = frame * channels + ch < read`, else silence. -/
def coreaudioWritePlanar (volume : ℚ) (interleaved_buf : List ℚ)
    (read frames channels ch : ℕ) : List ℚ :=
  (List.range frames).map (fun frame =>
    let idx := frame * channels + ch
    if frame < read / channels ∧ idx < read then
      (if volume < 1 then interleaved_buf.getD idx 0 * volume
       else interleaved_buf.getD idx 0)
    else 0)

/-- CPAL callback output (audio_engine.rs lines 1029-1071): `pop_slice`
writes the popped samples into the head of `data`, the loop at lines
1062-1064 multiplies `data[..read]` by `volume` (unconditionally, also at
`volume == 1.0`, where the multiplication is value-preserving), and lines
1067-1071 zero-fill `data[read..]`. -/
def cpalCallbackOut (volume : ℚ) (popped : List ℚ) (tail_len : ℕ) : List ℚ :=
  popped.map (fun s => s * volume) ++ List.replicate tail_len 0

/-! ### RMS computation (coreaudio_stream.rs lines 413-422) -/

/-- Sum-of-squares accumulation loop (coreaudio_stream.rs lines 415-419):
`for i in 0..read { let s = interleaved_buf[i]; sum_sq += s * s; }`. -/
def sumSq (samples : List ℚ) : ℚ :=
  samples.foldl (fun sum_sq s => sum_sq + s * s) 0

/-- RMS published by the render callback when `read > 0` (coreaudio_stream.rs
lines 414-421): `(sum_sq / read as f64).sqrt()`, computed over the valid
prefix `interleaved_buf[..read]` after the EQ stage. -/
noncomputable def rmsOfRead (interleaved_buf : List ℚ) (read : ℕ) : ℝ :=
  Real.sqrt ((sumSq (interleaved_buf.take read) : ℝ) / read)

/-! ### Callback playback position (coreaudio_stream.rs, audio_engine.rs) -/

/-- Playback-position update of one output-callback invocation, common to
the CoreAudio render callback (coreaudio_stream.rs lines 289-317, 320-363,
366-380, 471-479) and the CPAL callback (audio_engine.rs lines 959-1027,
1074-1084): the paused / not-playing and end-emitted branches leave the
position unchanged; the flush branch and the seeking branch assign it from
`seek_position` (lines 348 and 377; 1007 and 1024) with no clamp; a normal
read with `read > 0` adds `read` and clamps to `duration_samples`
(lines 471-475; 1074-1079). -/
def renderPositionAfter (is_paused end_emitted flush_buffer seeking : Bool)
    (seek_position read playback_samples duration_samples : ℕ) : ℕ :=
  if is_paused then playback_samples
  else if end_emitted then playback_samples
  else if flush_buffer then seek_position
  else if seeking then seek_position
  else if 0 < read then
    if duration_samples < playback_samples + read then duration_samples
    else playback_samples + read
  else playback_samples

/-- Seek target written by the engine coordinator (audio_engine.rs lines
814-816): `(time_seconds * info.sample_rate as f64 * info.channels as f64)
as u64`; Rust's float-to-unsigned cast saturates below at 0, which the
natural-number floor models; no clamp against the track duration is
applied. -/
def engineSeekTargetSamples (time_seconds : ℚ) (sample_rate channels : ℕ) : ℕ :=
  ⌊time_seconds * sample_rate * channels⌋₊

/-- `duration_samples = total_frames * channels` as computed at stream
construction (coreaudio_stream.rs line 198, audio_engine.rs line 928). -/
def durationSamples (total_frames channels : ℕ) : ℕ :=
  total_frames * channels

/-! ### Seek handshake flags (audio_decoder.rs, audio_engine.rs,
coreaudio_stream.rs) -/

/-- Shared seek-handshake flags of `StreamingState`
(audio_decoder.rs lines 77-81). -/
structure HandshakeState where
  seeking : Bool
  flush_buffer : Bool
  flush_complete : Bool
deriving DecidableEq, Repr

/-- Atomic stores touching the handshake flags along the seek protocol:
`setFlushBuffer` is the decoder's flush request (audio_decoder.rs line 535);
`callbackFlush` is the output callback's flush branch, which stores
`flush_buffer := false` then `flush_complete := true`
(coreaudio_stream.rs lines 344-345, audio_engine.rs lines 1001-1004);
`storeSeekPos` is the decoder's seek-position store (line 573, no flag
change); `clearSeeking` is a `seeking.store(false)` (lines 585, 681, 709);
`clearFlushBuffer` is the decoder's `flush_buffer.store(false)` in the
seek-error branch (line 586); `pushSamples` is a ring push (no flag
change). -/
inductive SeekAct
  | setFlushBuffer
  | callbackFlush
  | storeSeekPos
  | clearSeeking
  | clearFlushBuffer
  | pushSamples
deriving DecidableEq, Repr

/-- Effect of one atomic action on the handshake flags. -/
def SeekAct.apply : HandshakeState → SeekAct → HandshakeState
  | s, .setFlushBuffer => { s with flush_buffer := true }
  | s, .callbackFlush => { s with flush_buffer := false, flush_complete := true }
  | s, .storeSeekPos => s
  | s, .clearSeeking => { s with seeking := false }
  | s, .clearFlushBuffer => { s with flush_buffer := false }
  | s, .pushSamples => s

/-- Flag state established by the engine coordinator immediately before it
sends `DecoderCommand::Seek` (audio_engine.rs lines 816-822):
`seeking := true`, `flush_buffer := false`, `flush_complete := false`. -/
def engineSeekSetup : HandshakeState :=
  { seeking := true, flush_buffer := false, flush_complete := false }

/-- Action sequence of the decoder's `Seek` command handler
(audio_decoder.rs lines 526-595) followed by the main loop's post-seek
pre-fill (lines 667-711): the decoder requests the flush; the callback's
flush branch runs during the decoder's bounded wait exactly when
`flushCompletes` is true — when it is false the 500 ms wait times out and
the decoder proceeds regardless (lines 540-547), which happens whenever the
callback does not reach its flush check (e.g. paused or stopped stream).
Then either the format seek succeeds (`seekOk`): the decoder stores the new
seek position, pushes post-seek samples, and clears `seeking` once the
pre-fill threshold is reached (line 709); or it fails: the decoder stores
`seeking := false` and then `flush_buffer := false` (lines 585-586). -/
def decoderSeekScript (flushCompletes seekOk : Bool) : List SeekAct :=
  [.setFlushBuffer]
    ++ (if flushCompletes then [.callbackFlush] else [])
    ++ (if seekOk then [.storeSeekPos, .pushSamples, .clearSeeking]
        else [.clearSeeking, .clearFlushBuffer])

/-- Trace of a script from a start state: each action paired with the flag
state in which it executes. -/
def runTrace (s : HandshakeState) : List SeekAct → List (HandshakeState × SeekAct)
  | [] => []
  | a :: rest => (s, a) :: runTrace (a.apply s) rest

/-- Invariant check over a trace: every `clearSeeking` store executes in a
state where `flush_buffer` is already false. -/
def clearsSeekingOnlyWhenFlushFalse
    (trace : List (HandshakeState × SeekAct)) : Bool :=
  trace.all (fun p =>
    match p.2 with
    | .clearSeeking => !p.1.flush_buffer
    | _ => true)

/-! ### Decoder session events (audio_decoder.rs lines 493-742) -/

/-- Outcome of one iteration of the decoder main loop: a pending command
(`cmdSeek` returns into the loop, `cmdStop` breaks, lines 526-594), or the
result of `format.next_packet()` — clean EOF with a resampler-flush
remainder of `flushLen` samples (lines 601-611), a recoverable
`ResetRequired` (lines 613-616), another decode error (lines 617-620), or a
decoded packet whose conversion/resampling yields `written` pushed samples
(lines 639-676). -/
inductive DecoderInput
  | cmdSeek
  | cmdStop
  | packetEof (flushLen : ℕ)
  | packetResetRequired
  | packetErr
  | packetOk (written : ℕ)

/-- Observable events of a decoder session: ring pushes (`push_to_ring`,
lines 608, 668) and the single `decoding_complete.store(true)`
(line 714). -/
inductive DecoderEvent
  | push (n : ℕ)
  | setComplete
deriving DecidableEq

/-- Ring-push events emitted by the decoder loop for a given sequence of
iteration inputs: `cmdStop` and EOF break the loop (EOF first pushing the
resampler flush remainder when nonempty); seek handling and recoverable
errors emit no push; a decoded packet pushes its samples. -/
def decoderLoopEvents : List DecoderInput → List DecoderEvent
  | [] => []
  | .cmdStop :: _ => []
  | .packetEof flushLen :: _ => if flushLen = 0 then [] else [.push flushLen]
  | .cmdSeek :: rest => decoderLoopEvents rest
  | .packetResetRequired :: rest => decoderLoopEvents rest
  | .packetErr :: rest => decoderLoopEvents rest
  | .packetOk written :: rest => .push written :: decoderLoopEvents rest

/-- Full event trace of one `decoder_thread` session: the loop events
followed by the single `decoding_complete` store after the loop exits
(line 714); after it, the thread only logs and returns (lines 714-717). -/
def decoderThreadEvents (inputs : List DecoderInput) : List DecoderEvent :=
  decoderLoopEvents inputs ++ [.setComplete]

/-- Check over an event trace: after a `setComplete` event, no `push`
event occurs. -/
def noPushAfterComplete : List DecoderEvent → Bool
  | [] => true
  | .setComplete :: rest =>
    rest.all (fun e => match e with | .push _ => false | .setComplete => true)
  | .push _ :: rest => noPushAfterComplete rest

end Noir

namespace Noir

/-! ### Theorems: C9, C10, C5 -/

/-- C9: for every float `v`, after `PlaybackState::set_volume(v)` the stored
volume equals `v` clamped to `[0, 1]`, a subsequent `get_volume` returns
exactly that clamped value, and for `v` already in `[0, 1]` the set-then-get
round trip returns `v` (exact, hence within 1 ULP); the engine's
`SetVolume` command arm delegates to `set_volume`. -/
theorem setVolume_then_getVolume (s : PlaybackState) (v : ℚ) :
    (audioThreadSetVolume s v).get_volume = rustClamp v 0 1 ∧
    (audioThreadSetVolume s v).volume = rustClamp v 0 1 ∧
    (0 ≤ v → v ≤ 1 → (audioThreadSetVolume s v).get_volume = v) := by
  refine ⟨rfl, rfl, fun h0 h1 => ?_⟩
  simp only [audioThreadSetVolume, PlaybackState.set_volume,
    PlaybackState.get_volume, rustClamp]
  rw [if_neg (by linarith), if_neg (by linarith)]

/-- Witness for C9 at `v = 1/2`. -/
theorem setVolume_then_getVolume_witness :
    (0:ℚ) ≤ 1/2 ∧ (1:ℚ)/2 ≤ 1 ∧
    (audioThreadSetVolume ⟨1⟩ (1/2)).get_volume = 1/2 :=
  ⟨by norm_num, by norm_num,
    (setVolume_then_getVolume ⟨1⟩ (1/2)).2.2 (by norm_num) (by norm_num)⟩

/-- C10: for every band index `b ≥ 8` and every gain value,
`EqSharedState::set_gain(b, g)` leaves the shared state (hence all 8 stored
gains) unchanged, and `EqSharedState::get_gain(b)` returns `0.0`. -/
theorem eq_set_get_gain_out_of_range (s : EqSharedState) (band : ℕ)
    (gain_db : ℚ) (h : EQ_BAND_COUNT ≤ band) :
    s.set_gain band gain_db = s ∧ s.get_gain band = 0 := by
  constructor
  · unfold EqSharedState.set_gain
    rw [dif_neg (by omega)]
  · unfold EqSharedState.get_gain
    rw [dif_neg (by omega)]

/-- Witness for C10 at `band = 9`, `g = 5`, on the freshly constructed
shared state. -/
theorem eq_set_get_gain_out_of_range_witness :
    EqSharedState.new.set_gain 9 5 = EqSharedState.new ∧
    EqSharedState.new.get_gain 9 = 0 :=
  eq_set_get_gain_out_of_range EqSharedState.new 9 5 (by norm_num [EQ_BAND_COUNT])

/-- Helper: a nonempty list has `some` maximum. -/
theorem max?_isSome_of_ne_nil {l : List ℕ} (h : l ≠ []) :
    ∃ m, l.max? = some m := by
  cases l with
  | nil => exact absurd rfl h
  | cons a as => exact ⟨as.foldl max a, rfl⟩

/-- C5: for every requested rate and every list of device-supported rates,
the rate chosen by `prepare_for_streaming` equals the spec's policy
{exact match > smallest supported ≥ requested > largest supported > 44100}. -/
theorem prepare_rate_follows_policy (requested : ℕ) (supported_rates : List ℕ) :
    prepareTargetRate requested supported_rates =
      specRatePolicy requested supported_rates := by
  unfold prepareTargetRate specRatePolicy find_best_supported_rate
  by_cases hmem : requested ∈ supported_rates
  · simp [hmem]
  · rw [if_neg hmem, if_neg hmem]
    by_cases hnil : supported_rates.isEmpty
    · rw [if_pos hnil]
      rw [List.isEmpty_iff] at hnil
      subst hnil
      rfl
    · rw [if_neg hnil, if_neg hmem]
      rw [List.isEmpty_iff] at hnil
      cases hmin : (supported_rates.filter (fun r => requested ≤ r)).min? with
      | some rate => simp [hmin]
      | none =>
        obtain ⟨m, hm⟩ := max?_isSome_of_ne_nil hnil
        simp [hmin, hm]

/-! ### C7: converted samples lie in [-1, 1] -/

/-- Helper: the default sample value 0 read by `getD` satisfies every
format's range. -/
theorem fmtRange_zero (fmt : SampleFmt) : fmtRange fmt 0 := by
  cases fmt <;> exact ⟨by norm_num, by norm_num⟩

/-- Helper: a sample within its format's type range converts into
`[-1, 1]`. -/
theorem convertSample_mem_Icc (fmt : SampleFmt) (v : ℚ) (h : fmtRange fmt v) :
    -1 ≤ convertSample fmt v ∧ convertSample fmt v ≤ 1 := by
  cases fmt <;> obtain ⟨h1, h2⟩ := h <;>
    exact ⟨by rw [convertSample]; linarith, by rw [convertSample]; linarith⟩

/-- C7 counterexample: a decoded F32 buffer containing the sample `2.0`
(legal for a float source file) is passed through unchanged, producing an
output sample outside `[-1, 1]`, so the claim fails for the F32 format as
stated. -/
theorem convert_f32_out_of_range_counterexample :
    convert_to_f32_interleaved .f32 [[2]] 1 = [2] ∧
    ¬(-1 ≤ (2 : ℚ) ∧ (2 : ℚ) ≤ 1) := by
  constructor
  · rfl
  · intro h
    exact absurd h.2 (by norm_num)

/-- C7 amended: every sample produced by `convert_to_f32_interleaved` lies
in `[-1, 1]` whenever the decoded samples are within their source format's
type range — automatic for S16, S24, S32 and U8 (their Rust element types),
an assumption for F32, which is passed through unchanged. -/
theorem convert_samples_in_unit_range (fmt : SampleFmt)
    (chans : List (List ℚ)) (frames : ℕ)
    (hin : ∀ chan ∈ chans, ∀ v ∈ chan, fmtRange fmt v) :
    ∀ s ∈ convert_to_f32_interleaved fmt chans frames, -1 ≤ s ∧ s ≤ 1 := by
  intro s hs
  simp only [convert_to_f32_interleaved, List.mem_flatten, List.mem_map,
    List.mem_range] at hs
  obtain ⟨row, ⟨frame, _, hrow⟩, hsrow⟩ := hs
  subst hrow
  simp only [List.mem_map] at hsrow
  obtain ⟨chan, hchan, hconv⟩ := hsrow
  subst hconv
  apply convertSample_mem_Icc
  by_cases hf : frame < chan.length
  · rw [List.getD_eq_getElem chan 0 hf]
    exact hin chan hchan _ (List.getElem_mem hf)
  · rw [List.getD_eq_default _ _ (by omega)]
    exact fmtRange_zero fmt

/-- Witness for C7 (amended) on a concrete S16 stereo buffer. -/
theorem convert_samples_in_unit_range_witness :
    (∀ chan ∈ ([[32767, -32768], [100, -100]] : List (List ℚ)),
      ∀ v ∈ chan, fmtRange SampleFmt.s16 v) ∧
    ∀ s ∈ convert_to_f32_interleaved .s16 [[32767, -32768], [100, -100]] 2,
      -1 ≤ s ∧ s ≤ 1 :=
  ⟨by decide, convert_samples_in_unit_range .s16 _ 2 (by decide)⟩

/-! ### C3: volume == 1.0 writes samples unmodified -/

/-- C3: in every normal-path output-callback invocation (reached only when
not paused, not flushing, not seeking) with volume exactly 1.0, the samples
written to the output buffer equal, unmodified, the popped samples (post-EQ
in the CoreAudio stream): the CoreAudio interleaved bypass branch copies the
valid prefix verbatim, the CoreAudio planar branch writes each in-range
sample verbatim, and the CPAL callback's multiplication by 1.0 is
value-preserving, leaving the popped prefix unchanged. -/
theorem volume_one_output_unmodified (buf out0 popped : List ℚ)
    (read frames channels ch tail_len : ℕ) (hread : read ≤ out0.length) :
    (∀ i, i < read →
      (coreaudioWriteInterleaved 1 buf out0 read).getD i 0 = buf.getD i 0) ∧
    (∀ frame, frame < frames → frame < read / channels →
      frame * channels + ch < read →
      (coreaudioWritePlanar 1 buf read frames channels ch).getD frame 0 =
        buf.getD (frame * channels + ch) 0) ∧
    cpalCallbackOut 1 popped tail_len = popped ++ List.replicate tail_len 0 := by
  refine ⟨fun i hi => ?_, fun frame hf hfr hidx => ?_, ?_⟩
  · have hlen : i < (coreaudioWriteInterleaved 1 buf out0 read).length := by
      simpa [coreaudioWriteInterleaved] using lt_of_lt_of_le hi hread
    rw [List.getD_eq_getElem _ _ hlen]
    simp only [coreaudioWriteInterleaved, List.getElem_map, List.getElem_range]
    rw [if_neg (by norm_num), if_pos (by omega)]
  · have hlen : frame < (coreaudioWritePlanar 1 buf read frames channels ch).length := by
      simpa [coreaudioWritePlanar] using hf
    rw [List.getD_eq_getElem _ _ hlen]
    simp only [coreaudioWritePlanar, List.getElem_map, List.getElem_range]
    rw [if_pos ⟨hfr, hidx⟩, if_neg (by norm_num)]
  · simp [cpalCallbackOut]

/-! ### C4: flat-gain EQ bypass -/

/-- Helper: overwriting a valid index with the value already stored there
leaves the list unchanged. -/
theorem set_getD_self (l : List ℚ) (i : ℕ) (h : i < l.length) :
    l.set i (l.getD i 0) = l := by
  induction l generalizing i with
  | nil => simp at h
  | cons x xs ih =>
    cases i with
    | zero => simp
    | succ n =>
      simp only [List.getD_cons_succ, List.set_cons_succ, List.cons.injEq, true_and]
      exact ih n (by simpa using h)

/-- Helper: when every band's baked gain is within 0.01 dB of flat, the
band chain of one frame passes the stereo pair through untouched and leaves
every filter state unchanged. -/
theorem processFrameBands_bypassed (bands : List EqBandFilter) (l r : ℚ)
    (h : ∀ b ∈ bands, ¬(1/100 < |b.current_gain_db|)) :
    processFrameBands bands l r = (l, r, bands) := by
  induction bands generalizing l r with
  | nil => rfl
  | cons b rest ih =>
    rw [processFrameBands, if_neg (h b (List.mem_cons_self b rest))]
    simp [ih l r (fun b' hb' => h b' (List.mem_cons_of_mem b hb'))]

/-- Helper: with every band bypassed, the frame loop is the identity on the
sample buffer and on the band states. -/
theorem processFrames_bypassed (bands : List EqBandFilter) (samples : List ℚ)
    (frame remaining : ℕ)
    (h : ∀ b ∈ bands, ¬(1/100 < |b.current_gain_db|)) :
    processFrames bands samples frame remaining = (samples, bands) := by
  induction remaining generalizing samples frame with
  | zero => rfl
  | succ n ih =>
    rw [processFrames]
    by_cases hlen : samples.length ≤ frame * 2 + 1
    · rw [if_pos hlen]
    · rw [if_neg hlen]
      simp only [processFrameBands_bypassed bands _ _ h]
      rw [set_getD_self samples (frame * 2) (by omega),
        set_getD_self samples (frame * 2 + 1) (by omega)]
      exact ih samples (frame + 1)

/-- Helper: with every shared gain at 0 dB, the gain-baking pass leaves
every band with a baked gain of magnitude at most 0.01 dB, hence
bypassed. -/
theorem update_all_zero_bypassed (mk : MkCoeffs) (bands : List EqBandFilter)
    (rate : ℚ) (shared : EqSharedState)
    (hg : ∀ j : Fin EQ_BAND_COUNT, shared.gains j = 0) :
    ∀ b ∈ bands.mapIdx
        (fun i b => b.update_if_needed mk (shared.gainAt i) rate),
      ¬(1/100 < |b.current_gain_db|) := by
  have hg' : ∀ i : ℕ, shared.gainAt i = 0 := by
    intro i
    unfold EqSharedState.gainAt
    split
    · exact hg _
    · rfl
  intro b hb
  rw [List.mem_iff_get] at hb
  obtain ⟨⟨i, hi⟩, rfl⟩ := hb
  have hi' : i < bands.length := by simpa using hi
  rw [List.get_mapIdx bands _ i hi', hg' i]
  unfold EqBandFilter.update_if_needed
  by_cases hc : 1/100 < |0 - (bands.get ⟨i, hi'⟩).current_gain_db|
  · rw [if_pos hc]
    norm_num
  · rw [if_neg hc]
    intro hcontra
    exact hc (by simpa using hcontra)

/-- C4: for every sample buffer, frame count, processor state and
coefficient formula, if the shared EQ state is enabled and all 8 shared
band gains are 0 dB, then `EqProcessor::process_interleaved` leaves the
buffer exactly unchanged — every band is baked to a flat gain (magnitude
≤ 0.01 dB) by the update pass and bypassed by the frame loop. -/
theorem eq_flat_gains_identity (mk : MkCoeffs) (p : EqProcessor)
    (samples : List ℚ) (frames : ℕ) (shared : EqSharedState)
    (henabled : shared.enabled = true)
    (hflat : ∀ j : Fin EQ_BAND_COUNT, shared.gains j = 0) :
    (p.process_interleaved mk samples frames shared).1 = samples := by
  unfold EqProcessor.process_interleaved
  rw [henabled]
  simp only [Bool.not_true, Bool.false_eq_true, if_false,
    processFrames_bypassed _ samples 0 frames
      (update_all_zero_bypassed mk p.bands p.sample_rate shared hflat)]

/-- Witness for C4 on a concrete two-sample (one stereo frame) buffer with
a concrete coefficient formula and a freshly built processor. -/
theorem eq_flat_gains_identity_witness :
    ({ enabled := true, gains := fun _ => 0 } : EqSharedState).enabled = true ∧
    ((EqProcessor.new (fun _ _ _ => ⟨0, 0, 1, 0, 0⟩) 44100).process_interleaved
        (fun _ _ _ => ⟨0, 0, 1, 0, 0⟩) [1/2, -1/3] 1
        { enabled := true, gains := fun _ => 0 }).1 = [1/2, -1/3] :=
  ⟨rfl, eq_flat_gains_identity (fun _ _ _ => ⟨0, 0, 1, 0, 0⟩)
    (EqProcessor.new (fun _ _ _ => ⟨0, 0, 1, 0, 0⟩) 44100) [1/2, -1/3] 1
    { enabled := true, gains := fun _ => 0 } rfl (fun _ => rfl)⟩

/-! ### C8: RMS bounds -/

/-- Helper: the fold of the sum-of-squares loop, with general
accumulator. -/
theorem sumSq_foldl_eq (l : List ℚ) (a : ℚ) :
    l.foldl (fun sum_sq s => sum_sq + s * s) a =
      a + (l.map (fun s => s * s)).sum := by
  induction l generalizing a with
  | nil => simp
  | cons x xs ih => simp [ih, add_assoc]

/-- Helper: the sum of squares is nonnegative. -/
theorem sumSq_nonneg (l : List ℚ) : 0 ≤ sumSq l := by
  rw [sumSq, sumSq_foldl_eq, zero_add]
  exact List.sum_nonneg (by
    intro x hx
    obtain ⟨s, _, rfl⟩ := List.mem_map.mp hx
    exact mul_self_nonneg s)

/-- Helper: with every sample in `[-1, 1]`, the sum of squares is at most
the sample count. -/
theorem sumSq_le_length (l : List ℚ) (h : ∀ s ∈ l, -1 ≤ s ∧ s ≤ 1) :
    sumSq l ≤ l.length := by
  rw [sumSq, sumSq_foldl_eq, zero_add]
  calc (l.map (fun s => s * s)).sum
      ≤ (l.map (fun s => s * s)).length • (1 : ℚ) := by
        apply List.sum_le_card_nsmul
        intro x hx
        obtain ⟨s, hs, rfl⟩ := List.mem_map.mp hx
        obtain ⟨h1, h2⟩ := h s hs
        nlinarith
    _ = l.length := by simp

/-- C8 counterexample: a single popped sample `2.0` (possible ring content:
an F32 source is decoded pass-through, and EQ boost can likewise exceed
unit range) yields a published RMS of `2`, outside `[0, 1]`, so the claim
fails as stated for arbitrary ring content. -/
theorem rms_unit_interval_counterexample :
    rmsOfRead [2] 1 = 2 ∧ ¬(rmsOfRead [2] 1 ≤ 1) := by
  have h : rmsOfRead [2] 1 = 2 := by
    rw [rmsOfRead]
    norm_num [sumSq]
    rw [show (4 : ℝ) = 2 ^ 2 by norm_num, Real.sqrt_sq (by norm_num : (0:ℝ) ≤ 2)]
  exact ⟨h, by rw [h]; norm_num⟩

/-- C8 amended: the published RMS is always nonnegative, and lies in
`[0, 1]` whenever every sample of the valid prefix (after EQ) lies in
`[-1, 1]`; for ring content or EQ settings producing samples outside unit
range the code publishes the unclamped value, which can exceed 1. -/
theorem rms_in_unit_interval (interleaved_buf : List ℚ) (read : ℕ)
    (hread : 1 ≤ read)
    (hbound : ∀ s ∈ interleaved_buf.take read, -1 ≤ s ∧ s ≤ 1) :
    0 ≤ rmsOfRead interleaved_buf read ∧ rmsOfRead interleaved_buf read ≤ 1 := by
  refine ⟨Real.sqrt_nonneg _, ?_⟩
  have hlen : (interleaved_buf.take read).length ≤ read := by
    simp [List.length_take]
  have hsum : sumSq (interleaved_buf.take read) ≤ read :=
    le_trans (sumSq_le_length _ hbound) (by exact_mod_cast hlen)
  have harg : (sumSq (interleaved_buf.take read) : ℝ) / read ≤ 1 := by
    rw [div_le_one (by positivity)]
    exact_mod_cast hsum
  calc rmsOfRead interleaved_buf read
      ≤ Real.sqrt 1 := Real.sqrt_le_sqrt harg
    _ = 1 := Real.sqrt_one

/-- Witness for C8 (amended) on the prefix `[1/2, -1/2]`. -/
theorem rms_in_unit_interval_witness :
    0 ≤ rmsOfRead [1/2, -1/2] 2 ∧ rmsOfRead [1/2, -1/2] 2 ≤ 1 :=
  rms_in_unit_interval [1/2, -1/2] 2 (by norm_num)
    (by intro s hs; fin_cases hs <;> norm_num)

/-! ### C1: playback position vs duration_samples -/

/-- C1 counterexample: with `total_frames = 50`, `channels = 2` and
`sample_rate = 50` (duration 1 s, `duration_samples = 100`), a seek to
`t = 2 s` — beyond the track duration — makes the engine store
`seek_position = 200`, and the callback's flush branch assigns the playback
position from `seek_position` without clamping, exceeding
`duration_samples`; the claim is false for seek targets beyond the track
duration. -/
theorem playback_position_bound_counterexample :
    (50 : ℚ) / 50 < 2 ∧
    engineSeekTargetSamples 2 50 2 = 200 ∧
    durationSamples 50 2 = 100 ∧
    renderPositionAfter false false true false 200 0 0 (durationSamples 50 2)
      = 200 ∧
    ¬(renderPositionAfter false false true false 200 0 0 (durationSamples 50 2)
      ≤ durationSamples 50 2) := by
  refine ⟨by norm_num, ?_, by norm_num [durationSamples], by decide, by decide⟩
  rw [engineSeekTargetSamples]
  norm_num

/-- C1 amended: the callback playback position never exceeds
`duration_samples` after a normal read (the clamp at coreaudio_stream.rs
lines 473-475 / audio_engine.rs lines 1077-1079 is unconditional on that
path), and in the flush and seeking branches — where it is assigned from
`seek_position` without clamping — the bound is preserved only when
`seek_position ≤ duration_samples`, i.e. only for seek targets within the
track duration. -/
theorem playback_position_bound (is_paused end_emitted flush_buffer seeking : Bool)
    (seek_position read playback_samples dur : ℕ) :
    (playback_samples ≤ dur → seek_position ≤ dur →
      renderPositionAfter is_paused end_emitted flush_buffer seeking
        seek_position read playback_samples dur ≤ dur) ∧
    (is_paused = false → end_emitted = false → flush_buffer = false →
      seeking = false → 0 < read →
      renderPositionAfter is_paused end_emitted flush_buffer seeking
        seek_position read playback_samples dur ≤ dur) := by
  constructor
  · intro h1 h2
    unfold renderPositionAfter
    split_ifs <;> omega
  · intro hp he hf hs hr
    subst hp; subst he; subst hf; subst hs
    unfold renderPositionAfter
    simp only [Bool.false_eq_true, if_false, if_pos hr]
    split_ifs <;> omega

/-- Witness for C1 (amended) at concrete values. -/
theorem playback_position_bound_witness :
    ((10 : ℕ) ≤ 100 ∧ (90 : ℕ) ≤ 100 ∧
      renderPositionAfter false false true false 90 0 10 100 ≤ 100) ∧
    (0 < 7 ∧ renderPositionAfter false false false false 90 7 98 100 ≤ 100) :=
  ⟨⟨by norm_num, by norm_num,
      (playback_position_bound false false true false 90 0 10 100).1
        (by norm_num) (by norm_num)⟩,
    ⟨by norm_num,
      (playback_position_bound false false false false 90 7 98 100).2
        rfl rfl rfl rfl (by norm_num)⟩⟩

/-! ### C2: seeking is cleared only when flush_buffer is false -/

/-- C2 counterexample: in the step sequence where the callback never runs
its flush branch (so the decoder's 500 ms wait for `flush_complete` times
out — e.g. the stream is paused, and the paused branch returns before the
flush check) and the format reader's seek then fails, the decoder stores
`seeking := false` (audio_decoder.rs line 585) while `flush_buffer` is
still true; the claimed invariant does not hold along every step
sequence. -/
theorem seeking_clear_counterexample :
    clearsSeekingOnlyWhenFlushFalse
      (runTrace engineSeekSetup (decoderSeekScript false false)) = false := by
  decide

/-- C2 amended: along every decoder seek-handling step sequence in which
the flush handshake completes before the decoder's 500 ms timeout (the
callback's flush branch stores `flush_buffer := false` before
`flush_complete := true`), every `seeking := false` store — in the
seek-error branch as well as at the post-seek pre-fill — executes with
`flush_buffer` already false; if the wait times out, the decoder may clear
`seeking` while `flush_buffer` is still true. -/
theorem seeking_cleared_only_after_flush (seekOk : Bool) :
    clearsSeekingOnlyWhenFlushFalse
      (runTrace engineSeekSetup (decoderSeekScript true seekOk)) = true := by
  cases seekOk <;> decide

/-! ### C6: no ring push after decoding_complete -/

/-- Helper: the loop part of a decoder session never emits the
`decoding_complete` store. -/
theorem decoderLoopEvents_no_setComplete (inputs : List DecoderInput) :
    ∀ e ∈ decoderLoopEvents inputs, e ≠ DecoderEvent.setComplete := by
  induction inputs with
  | nil => intro e he; simp [decoderLoopEvents] at he
  | cons i rest ih =>
    intro e he
    cases i with
    | cmdStop => simp [decoderLoopEvents] at he
    | packetEof flushLen =>
      rw [decoderLoopEvents] at he
      by_cases hf : flushLen = 0
      · rw [if_pos hf] at he
        simp at he
      · rw [if_neg hf] at he
        rw [List.mem_singleton] at he
        subst he
        intro hcontra
        cases hcontra
    | cmdSeek => exact ih e he
    | packetResetRequired => exact ih e he
    | packetErr => exact ih e he
    | packetOk written =>
      rcases List.mem_cons.mp he with rfl | hmem
      · intro hcontra; cases hcontra
      · exact ih e hmem

/-- Helper: a trace whose prefix contains no `setComplete`, followed by one
final `setComplete`, passes the no-push-after-complete check. -/
theorem noPushAfterComplete_of_clean (l : List DecoderEvent)
    (h : ∀ e ∈ l, e ≠ DecoderEvent.setComplete) :
    noPushAfterComplete (l ++ [DecoderEvent.setComplete]) = true := by
  induction l with
  | nil => rfl
  | cons e rest ih =>
    cases e with
    | push n =>
      simp only [List.cons_append, noPushAfterComplete]
      exact ih (fun e' he' => h e' (List.mem_cons_of_mem _ he'))
    | setComplete =>
      exact absurd rfl (h _ (List.mem_cons_self _ _))

/-- C6: for every sequence of decoder-loop iteration outcomes (commands,
packets, errors, EOF with its resampler-flush push), the session's event
trace contains no ring push after the `decoding_complete := true` store —
the flag is stored exactly once, after the loop (including the end-of-file
flush push) has finished, and the thread performs no ring writes
afterwards. -/
theorem no_push_after_decoding_complete (inputs : List DecoderInput) :
    noPushAfterComplete (decoderThreadEvents inputs) = true :=
  noPushAfterComplete_of_clean (decoderLoopEvents inputs)
    (decoderLoopEvents_no_setComplete inputs)

/-- Witness for C3 on concrete buffers: popped samples `[1/2, -1/3]`,
stereo, one frame. -/
theorem volume_one_output_unmodified_witness :
    (2 ≤ ([0, 0, 0] : List ℚ).length) ∧
    (coreaudioWriteInterleaved 1 [1/2, -1/3] [0, 0, 0] 2).getD 0 0 =
      ([1/2, -1/3] : List ℚ).getD 0 0 ∧
    (coreaudioWritePlanar 1 [1/2, -1/3] 2 1 2 1).getD 0 0 =
      ([1/2, -1/3] : List ℚ).getD 1 0 ∧
    cpalCallbackOut 1 [1/2, -1/3] 2 = [1/2, -1/3] ++ List.replicate 2 0 := by
  have h := volume_one_output_unmodified [1/2, -1/3] [0, 0, 0] [1/2, -1/3]
    2 1 2 1 2 (by norm_num)
  exact ⟨by norm_num, h.1 0 (by norm_num),
    by simpa using h.2.1 0 (by norm_num) (by norm_num) (by norm_num), h.2.2⟩

end Noir
